import Mathlib

set_option maxRecDepth 8000

/-!
Verification of the PS2APU firmware core (keyboard.asm bit receiver and key
buffer, host.c protocol decoder) against its natural-language specification.

The definitions below are shallow embeddings of the source routines:
`KEYBOARD_BIT`, `KEYBOARD_TIMEOUT`, `PutKey`, `GetKey`, `InitializeKeyboard`
from keyboard.asm, and `ConvertKeys` (one loop iteration), `DoShift`,
`DoSpecial`, `DoFunction`, `DoKeypad`, `DoASCII`, `DoExtended` from host.c.
-/

/-! ## Key buffer and receiver state (keyboard.asm) -/

/-- The bit-addressable flag byte `g_bKeyFlags` at address 0x20.
Bit positions per keyboard.asm: busy = bit 0, overflow = bit 4,
parity error = bit 5, framing error = bit 6, timeout = bit 7. -/
structure KeyFlags where
  busy : Bool
  overflow : Bool
  parityErr : Bool
  framing : Bool
  timeout : Bool
deriving DecidableEq, Repr

/-- The numeric value of the `g_bKeyFlags` byte, with the bit layout of
keyboard.asm (busy at bit 0, errors at bits 4..7). -/
def flagsByte (f : KeyFlags) : Nat :=
  (cond f.busy 1 0) + (cond f.overflow 16 0) + (cond f.parityErr 32 0) +
    (cond f.framing 64 0) + (cond f.timeout 128 0)

/-- KEYBOARD_ERROR_BITS from keyboard.h: the mask selecting the four sticky
error bits (overflow, parity, framing, timeout). -/
def KEYBOARD_ERROR_BITS : Nat := 0xF0

/-- State of the keyboard.asm module: `m_bKeyState`, `m_bKeyData`,
`m_bKeyGet`, `m_bKeyPut`, the circular buffer `m_abKeyBuffer` (modelled as a
total function on indices; only indices 0..15 are ever used), the flag byte,
and whether timer 0 is running (TR0). -/
structure KbState where
  state : Nat
  data : Nat
  get : Nat
  put : Nat
  buf : Nat → Nat
  flags : KeyFlags
  timer : Bool

/-- KEYBUFLEN from keyboard.asm. -/
def KEYBUFLEN : Nat := 16

/-- Embedding of `PutKey` (keyboard.asm lines 210-226).  The source computes
`A := (m_bKeyPut + 1) AND (KEYBUFLEN-1)` and then executes
`CJNE A, m_bKeyPut, SAVEIT` - i.e. it compares the incremented cursor with
`m_bKeyPut` itself (NOT with `m_bKeyGet`), falling through to `NOROOM` only
when they are equal.  `SAVEIT` stores `m_bKeyData` at the new cursor and
updates `m_bKeyPut`; `NOROOM` sets the overflow flag and discards the byte. -/
def PutKey (s : KbState) : KbState :=
  let a := (s.put + 1) &&& (KEYBUFLEN - 1)
  if a = s.put then
    { s with flags := { s.flags with overflow := true } }
  else
    { s with put := a, buf := fun i => if i = a then s.data else s.buf i }

/-- Embedding of `GetKey` (keyboard.asm lines 179-197): if the get and put
cursors are equal the buffer is empty and the routine returns -1 (modelled
as `none`); otherwise it increments and masks the get cursor, reads the byte
at the new cursor, and returns it. -/
def GetKey (s : KbState) : Option Nat × KbState :=
  if s.get = s.put then (none, s)
  else
    let g := (s.get + 1) &&& (KEYBUFLEN - 1)
    (some (s.buf g), { s with get := g })

/-- Odd population count of the low 8 bits: the 8051 parity flag PSW.0 for
an 8-bit accumulator value. -/
def oddBits (b : Nat) : Bool :=
  (List.range 8).foldl (fun p i => xor p (b.testBit i)) false

/-- One `RRC A` shift step of the data accumulator in state routine `SDATA`:
the sampled data line becomes the new bit 7 and the accumulator shifts right
one place. -/
def shiftIn (bit : Bool) (d : Nat) : Nat :=
  (cond bit 128 0) + d / 2

/-- Embedding of the `KEYBOARD_BIT` interrupt routine (keyboard.asm lines
234-310), one call per falling clock edge, with `bit` the sampled level of
the KEYBOARD_DATA line.  States: 0 start bit, 1-8 data bits, 9 parity bit,
10 stop bit, 11 error sink. -/
def KEYBOARD_BIT (bit : Bool) (s : KbState) : KbState :=
  if s.state = 0 then
    if bit then
      { s with flags := { s.flags with framing := true }, state := 11 }
    else
      { s with flags := { s.flags with busy := true }, data := 0,
               timer := true, state := 1 }
  else if s.state ≤ 8 then
    { s with data := shiftIn bit s.data, state := s.state + 1 }
  else if s.state = 9 then
    if bit = !(oddBits s.data) then { s with state := 10 }
    else { s with flags := { s.flags with parityErr := true }, state := 11 }
  else if s.state = 10 then
    let s1 := { s with flags := { s.flags with busy := false }, timer := false }
    if bit then { PutKey s1 with state := 0 }
    else { s1 with flags := { s1.flags with framing := true }, state := 11 }
  else s

/-- Embedding of the `KEYBOARD_TIMEOUT` interrupt routine (keyboard.asm lines
322-326): set the timeout flag, clear the busy flag, reset the state to 0. -/
def KEYBOARD_TIMEOUT (s : KbState) : KbState :=
  { s with flags := { s.flags with timeout := true, busy := false }, state := 0 }

/-- Embedding of `InitializeKeyboard` (keyboard.asm lines 147-166): clear the
two buffer cursors, the state, and the whole flag byte; stop timer 0.  The
buffer contents and data accumulator are not touched. -/
def InitializeKeyboard (s : KbState) : KbState :=
  { s with get := 0, put := 0, state := 0,
           flags := ⟨false, false, false, false, false⟩, timer := false }

/-- The keyboard module state right after reset and `InitializeKeyboard`. -/
def kbInit : KbState :=
  { state := 0, data := 0, get := 0, put := 0, buf := fun _ => 0,
    flags := ⟨false, false, false, false, false⟩, timer := false }

/-- One polling iteration of `WaitKey` (host.c lines 104-117): try `GetKey`;
on success return the byte; on the empty sentinel, if any bit of
KEYBOARD_ERROR_BITS is set in `g_bKeyFlags`, call `InitializeKeyboard`. -/
def WaitKeyStep (s : KbState) : Option Nat × KbState :=
  match GetKey s with
  | (some b, s1) => (some b, s1)
  | (none, s1) =>
    if flagsByte s1.flags &&& KEYBOARD_ERROR_BITS ≠ 0 then
      (none, InitializeKeyboard s1)
    else (none, s1)

/-! ## Claim C1 and C4 -/

/-- A keyboard state whose buffer is full: 15 bytes already stored
(put = 15, get = 0), with a fresh data byte 0x42 waiting in `m_bKeyData`. -/
def fullBufState : KbState :=
  { state := 10, data := 0x42, get := 0, put := 15,
    buf := fun i => if 1 ≤ i ∧ i ≤ 15 then 0x30 + i else 0,
    flags := ⟨true, false, false, false, false⟩, timer := true }

/-- C1: the claim states that when the incremented put cursor equals the get
cursor, `PutKey` sets Overflow, discards the byte and leaves the cursors and
entries unchanged.  The code instead compares the incremented cursor with the
put cursor itself (`CJNE A,m_bKeyPut`), so the full-buffer branch is dead: on
a full buffer the byte is stored, the put cursor advances onto the get cursor,
Overflow stays clear, and the buffer then reads back as empty, losing all 15
stored bytes. -/
theorem putKey_full_buffer_bug :
    (PutKey fullBufState).flags.overflow = false ∧
    (PutKey fullBufState).put = fullBufState.get ∧
    (GetKey (PutKey fullBufState)).1 = none := by
  refine ⟨rfl, rfl, ?_⟩
  rfl

/-- C4: the `KEYBOARD_TIMEOUT` handler, fired in any mid-frame or error state
1-11, sets the Timeout error flag, clears the Busy flag, and forces the
receiver state back to Idle (state 0); the buffer cursors and contents are
untouched, so no byte is enqueued for the aborted frame, and the other error
flags are preserved. -/
theorem timeout_forces_idle (s : KbState) (h1 : 1 ≤ s.state)
    (h2 : s.state ≤ 11) :
    (KEYBOARD_TIMEOUT s).flags.timeout = true ∧
    (KEYBOARD_TIMEOUT s).flags.busy = false ∧
    (KEYBOARD_TIMEOUT s).state = 0 ∧
    (KEYBOARD_TIMEOUT s).get = s.get ∧
    (KEYBOARD_TIMEOUT s).put = s.put ∧
    (KEYBOARD_TIMEOUT s).buf = s.buf ∧
    (KEYBOARD_TIMEOUT s).flags.overflow = s.flags.overflow ∧
    (KEYBOARD_TIMEOUT s).flags.parityErr = s.flags.parityErr ∧
    (KEYBOARD_TIMEOUT s).flags.framing = s.flags.framing := by
  refine ⟨rfl, rfl, rfl, rfl, rfl, rfl, rfl, rfl, rfl⟩

/-- Witness for `timeout_forces_idle` at a concrete mid-frame state. -/
theorem timeout_forces_idle_witness :
    (KEYBOARD_TIMEOUT { kbInit with state := 5 }).state = 0 ∧
    (KEYBOARD_TIMEOUT { kbInit with state := 5 }).flags.timeout = true := by
  have h := timeout_forces_idle { kbInit with state := 5 }
    (by decide) (by decide)
  exact ⟨h.2.2.1, h.1⟩

/-! ## Claim C3: parity checking -/

/-- Run the bit receiver over a list of sampled data-line levels, one falling
clock edge per list element. -/
def runBits (s : KbState) (bits : List Bool) : KbState :=
  bits.foldl (fun t bit => KEYBOARD_BIT bit t) s

/-- The error state 11 is a pure sink for the bit receiver: every further
clock edge leaves the keyboard state completely unchanged. -/
theorem runBits_error_sink (s : KbState) (hs : s.state = 11) :
    ∀ bits : List Bool, runBits s bits = s := by
  intro bits
  induction bits with
  | nil => rfl
  | cons b bs ih =>
    have hstep : KEYBOARD_BIT b s = s := by
      unfold KEYBOARD_BIT
      rw [hs]
      simp
    simpa [runBits, hstep] using ih

/-- C3: in the parity state (state 9), the 8051 compares the received parity
bit against the parity of the accumulated byte.  The expected bit for odd
parity is the complement of the accumulator population-count parity.  On a
mismatch the receiver sets the sticky Parity error flag, moves to the error
state 11, leaves the buffer cursors and contents untouched, and - because
state 11 is a sink - never enqueues the frame's byte on any later edge.  On
a match it advances to the stop-bit state 10 without touching the buffer or
the error flags. -/
theorem parity_mismatch_error (s : KbState) (bit : Bool) (hs : s.state = 9) :
    (bit ≠ !(oddBits s.data) →
      (KEYBOARD_BIT bit s).flags.parityErr = true ∧
      (KEYBOARD_BIT bit s).state = 11 ∧
      (KEYBOARD_BIT bit s).put = s.put ∧
      (KEYBOARD_BIT bit s).buf = s.buf ∧
      ∀ bits : List Bool,
        runBits (KEYBOARD_BIT bit s) bits = KEYBOARD_BIT bit s) ∧
    (bit = !(oddBits s.data) →
      (KEYBOARD_BIT bit s).state = 10 ∧
      (KEYBOARD_BIT bit s).flags = s.flags ∧
      (KEYBOARD_BIT bit s).put = s.put ∧
      (KEYBOARD_BIT bit s).buf = s.buf) := by
  have hstep : KEYBOARD_BIT bit s =
      if bit = !(oddBits s.data) then { s with state := 10 }
      else { s with flags := { s.flags with parityErr := true }, state := 11 } := by
    unfold KEYBOARD_BIT
    rw [hs]
    simp
  constructor
  · intro hne
    rw [hstep, if_neg hne]
    refine ⟨rfl, rfl, rfl, rfl, ?_⟩
    intro bits
    exact runBits_error_sink _ rfl bits
  · intro heq
    rw [hstep, if_pos heq]
    exact ⟨rfl, rfl, rfl, rfl⟩

/-- Witness for `parity_mismatch_error`: a state-9 receiver holding the byte
0x41 (two set bits, even population, expected parity bit 1) that instead
samples a 0 parity bit. -/
theorem parity_mismatch_error_witness :
    (KEYBOARD_BIT false { kbInit with state := 9, data := 0x41 }).flags.parityErr
      = true ∧
    (KEYBOARD_BIT false { kbInit with state := 9, data := 0x41 }).state = 11 ∧
    (KEYBOARD_BIT true { kbInit with state := 9, data := 0x41 }).state = 10 := by
  have h := parity_mismatch_error { kbInit with state := 9, data := 0x41 }
    false rfl
  have h2 := parity_mismatch_error { kbInit with state := 9, data := 0x41 }
    true rfl
  have hm := h.1 (by decide)
  have hg := h2.2 (by decide)
  exact ⟨hm.1, hm.2.1, hg.1⟩

/-! ## Claim C8: reinitialize on sticky error -/

/-- Pointwise ordering of the four sticky error flags: every error set in
`f` is still set in `g`. -/
def errorsLe (f g : KeyFlags) : Prop :=
  (f.overflow = true → g.overflow = true) ∧
  (f.parityErr = true → g.parityErr = true) ∧
  (f.framing = true → g.framing = true) ∧
  (f.timeout = true → g.timeout = true)

/-- Every receiver-side operation only ever raises sticky error bits, never
clears one: the bit receiver, the timeout handler, the producer and the
consumer all preserve set error flags. -/
theorem errors_sticky (s : KbState) (bit : Bool) :
    errorsLe s.flags (KEYBOARD_BIT bit s).flags ∧
    errorsLe s.flags (KEYBOARD_TIMEOUT s).flags ∧
    errorsLe s.flags (PutKey s).flags ∧
    errorsLe s.flags ((GetKey s).2).flags := by
  have hput : ∀ t : KbState, errorsLe t.flags (PutKey t).flags := by
    intro t
    simp only [PutKey]
    split_ifs <;> simp [errorsLe]
  refine ⟨?_, ?_, hput s, ?_⟩
  · simp only [KEYBOARD_BIT]
    split_ifs <;> simp [errorsLe] <;>
      simpa [errorsLe] using
        hput { s with flags := { s.flags with busy := false }, timer := false }
  · simp [KEYBOARD_TIMEOUT, errorsLe]
  · simp only [GetKey]
    split_ifs <;> simp [errorsLe]

/-- C8: when the blocking consumer observes an empty buffer (GetKey returns
the empty sentinel) while any of the four sticky error bits (mask 0xF0) is
set, the `WaitKey` poll loop invokes the full receiver reinitialize, which
zeroes both circular-buffer cursors, resets the receiver state to Idle and
clears the entire flag byte; and no other path ever clears an error bit
(`errors_sticky` conjunct). -/
theorem empty_error_reinitialize (s : KbState) (hemp : s.get = s.put)
    (herr : flagsByte s.flags &&& KEYBOARD_ERROR_BITS ≠ 0) :
    (WaitKeyStep s).1 = none ∧
    (WaitKeyStep s).2.get = 0 ∧
    (WaitKeyStep s).2.put = 0 ∧
    (WaitKeyStep s).2.state = 0 ∧
    flagsByte (WaitKeyStep s).2.flags = 0 ∧
    (∀ t : KbState, ∀ bit : Bool,
      errorsLe t.flags (KEYBOARD_BIT bit t).flags ∧
      errorsLe t.flags (KEYBOARD_TIMEOUT t).flags ∧
      errorsLe t.flags (PutKey t).flags ∧
      errorsLe t.flags ((GetKey t).2).flags) := by
  have hget : GetKey s = (none, s) := by
    unfold GetKey
    rw [if_pos hemp]
  have hw : WaitKeyStep s = (none, InitializeKeyboard s) := by
    unfold WaitKeyStep
    rw [hget]
    simp only [if_pos herr]
  rw [hw]
  exact ⟨rfl, rfl, rfl, rfl, rfl, fun t bit => errors_sticky t bit⟩

/-- An empty buffer (both cursors at 7) with the Framing error bit set. -/
def framedErrState : KbState :=
  { kbInit with get := 7, put := 7, flags := ⟨false, false, false, true, false⟩ }

/-- Witness for `empty_error_reinitialize` at `framedErrState`. -/
theorem empty_error_reinitialize_witness :
    (WaitKeyStep framedErrState).1 = none ∧
    (WaitKeyStep framedErrState).2.get = 0 ∧
    flagsByte (WaitKeyStep framedErrState).2.flags = 0 := by
  have h := empty_error_reinitialize framedErrState rfl (by decide)
  exact ⟨h.1, h.2.1, h.2.2.2.2.1⟩

/-! ## Claim C2: frames in, bytes out -/

/-- The data-line levels of a well-formed PS/2 frame carrying the byte `b`:
start bit 0, the 8 data bits LSB-first, the odd-parity bit (the complement of
the data byte's population-count parity), and stop bit 1. -/
def frameBits (b : Nat) : List Bool :=
  [false, b.testBit 0, b.testBit 1, b.testBit 2, b.testBit 3, b.testBit 4,
   b.testBit 5, b.testBit 6, b.testBit 7, !oddBits b, true]

/-- Present one well-formed frame for byte `b` to the bit receiver. -/
def feedFrame (s : KbState) (b : Nat) : KbState :=
  runBits s (frameBits b)

/-- Present a sequence of well-formed frames to the bit receiver. -/
def feedFrames (s : KbState) (bs : List Nat) : KbState :=
  bs.foldl feedFrame s

/-- Repeatedly dequeue via `GetKey` until the empty sentinel appears or the
fuel runs out, collecting the returned bytes. -/
def drainFuel : Nat → KbState → List Nat
  | 0, _ => []
  | n + 1, s =>
    match GetKey s with
    | (none, _) => []
    | (some b, s1) => b :: drainFuel n s1

theorem runBits_append (s : KbState) (l1 l2 : List Bool) :
    runBits s (l1 ++ l2) = runBits (runBits s l1) l2 := by
  simp [runBits]

/-- Eight `RRC` steps reassemble the byte whose bits were sampled
LSB-first. -/
theorem byte_accum : ∀ b : Nat, b < 256 →
    shiftIn (b.testBit 7) (shiftIn (b.testBit 6) (shiftIn (b.testBit 5)
      (shiftIn (b.testBit 4) (shiftIn (b.testBit 3) (shiftIn (b.testBit 2)
        (shiftIn (b.testBit 1) (shiftIn (b.testBit 0) 0))))))) = b := by
  decide

theorem and15 : ∀ x : Nat, x < 16 → x &&& 15 = x := by decide

/-- Effect of one well-formed frame on an idle receiver whose put cursor has
room to advance without wrapping: the byte is stored one past the put cursor,
the put cursor advances, and the receiver returns to idle with the busy flag
clear and the timeout timer stopped. -/
theorem feedFrame_spec (s : KbState) (b : Nat) (hs : s.state = 0)
    (hb : b < 256) (hp : s.put + 1 < 16) :
    feedFrame s b =
      { s with data := b, put := s.put + 1,
               buf := fun i => if i = s.put + 1 then b else s.buf i,
               flags := { s.flags with busy := false }, timer := false } := by
  obtain ⟨st, dat, g, p, bf, fl, tm⟩ := s
  obtain ⟨bsy, ovf, par, fra, tmo⟩ := fl
  simp only at hs hp
  subst hs
  have hacc := byte_accum b hb
  have hand := and15 (p + 1) hp
  rw [feedFrame]
  rw [show frameBits b =
        [false, b.testBit 0, b.testBit 1, b.testBit 2, b.testBit 3,
         b.testBit 4, b.testBit 5, b.testBit 6, b.testBit 7] ++
        [!oddBits b, true] from rfl]
  rw [runBits_append]
  have hA : runBits ⟨0, dat, g, p, bf, ⟨bsy, ovf, par, fra, tmo⟩, tm⟩
      [false, b.testBit 0, b.testBit 1, b.testBit 2, b.testBit 3,
       b.testBit 4, b.testBit 5, b.testBit 6, b.testBit 7] =
      ⟨9, shiftIn (b.testBit 7) (shiftIn (b.testBit 6) (shiftIn (b.testBit 5)
        (shiftIn (b.testBit 4) (shiftIn (b.testBit 3) (shiftIn (b.testBit 2)
          (shiftIn (b.testBit 1) (shiftIn (b.testBit 0) 0))))))),
       g, p, bf, ⟨true, ovf, par, fra, tmo⟩, true⟩ := by
    simp [runBits, KEYBOARD_BIT]
  rw [hA, hacc]
  simp only [runBits, List.foldl]
  rw [show KEYBOARD_BIT (!oddBits b)
        ⟨9, b, g, p, bf, ⟨true, ovf, par, fra, tmo⟩, true⟩ =
        ⟨10, b, g, p, bf, ⟨true, ovf, par, fra, tmo⟩, true⟩ by
      simp [KEYBOARD_BIT]]
  simp only [KEYBOARD_BIT, PutKey, KEYBUFLEN]
  norm_num [hand]

/-- Invariant of feeding a list of well-formed frames into an idle receiver:
the put cursor advances by one per frame, the bytes land in consecutive
buffer slots just past the initial put cursor, and slots at or below the
initial put cursor are untouched, provided the cursor never wraps. -/
theorem feedFrames_inv : ∀ (bs : List Nat) (s : KbState),
    s.state = 0 → s.put + bs.length ≤ 15 → (∀ b ∈ bs, b < 256) →
    (feedFrames s bs).state = 0 ∧
    (feedFrames s bs).get = s.get ∧
    (feedFrames s bs).put = s.put + bs.length ∧
    (∀ j, j < bs.length → (feedFrames s bs).buf (s.put + 1 + j) = bs.getD j 0) ∧
    (∀ i, i ≤ s.put → (feedFrames s bs).buf i = s.buf i) := by
  intro bs
  induction bs with
  | nil =>
    intro s hs _ _
    refine ⟨hs, rfl, by simp [feedFrames], ?_, ?_⟩
    · intro j hj
      exact absurd hj (by simp)
    · intro i _
      rfl
  | cons b bs ih =>
    intro s hs hlen hb
    have hb0 : b < 256 := hb b (by simp)
    have hbs : ∀ x ∈ bs, x < 256 := fun x hx => hb x (by simp [hx])
    have hp1 : s.put + 1 < 16 := by
      simp only [List.length_cons] at hlen
      omega
    have hstep := feedFrame_spec s b hs hb0 hp1
    have hrun : feedFrames s (b :: bs) = feedFrames (feedFrame s b) bs := by
      simp only [feedFrames, List.foldl_cons]
    have hlen2 : (feedFrame s b).put + bs.length ≤ 15 := by
      rw [hstep]
      simp only [List.length_cons] at hlen
      simp only
      omega
    have hs2 : (feedFrame s b).state = 0 := by
      rw [hstep]
      exact hs
    obtain ⟨ih1, ih2, ih3, ih4, ih5⟩ := ih (feedFrame s b) hs2 hlen2 hbs
    rw [hrun]
    refine ⟨ih1, ?_, ?_, ?_, ?_⟩
    · rw [ih2, hstep]
    · rw [ih3, hstep]
      simp only [List.length_cons]
      omega
    · intro j hj
      match j with
      | 0 =>
        have hle : s.put + 1 ≤ (feedFrame s b).put := by
          rw [hstep]
        have := ih5 (s.put + 1) hle
        rw [show s.put + 1 + 0 = s.put + 1 from rfl, this, hstep]
        simp
      | j + 1 =>
        have hj2 : j < bs.length := by
          simp only [List.length_cons] at hj
          omega
        have hput2 : (feedFrame s b).put = s.put + 1 := by
          rw [hstep]
        have htl := ih4 j hj2
        rw [hput2] at htl
        simp only [List.getD_cons_succ]
        rw [show s.put + 1 + (j + 1) = s.put + 1 + 1 + j from by omega]
        exact htl
    · intro i hi
      have hle : i ≤ (feedFrame s b).put := by
        rw [hstep]
        simp only
        omega
      have := ih5 i hle
      rw [this, hstep]
      simp only
      have hne : i ≠ s.put + 1 := by omega
      simp [hne]

/-- Draining a buffer that holds, in consecutive slots past the get cursor,
exactly the list `bs` (with no wraparound) returns `bs`. -/
theorem drain_spec : ∀ (bs : List Nat) (n : Nat) (s : KbState),
    s.put = s.get + bs.length → s.get + bs.length ≤ 15 →
    (∀ j, j < bs.length → s.buf (s.get + 1 + j) = bs.getD j 0) →
    bs.length ≤ n →
    drainFuel n s = bs := by
  intro bs
  induction bs with
  | nil =>
    intro n s hput _ _ _
    simp only [List.length_nil, Nat.add_zero] at hput
    have hemp : s.get = s.put := hput.symm
    match n with
    | 0 => rfl
    | n + 1 =>
      have hg : GetKey s = (none, s) := by
        unfold GetKey
        rw [if_pos hemp]
      simp [drainFuel, hg]
  | cons b bs ih =>
    intro n s hput hbnd hbuf hn
    simp only [List.length_cons] at hput hbnd hn
    match n with
    | 0 => omega
    | n + 1 =>
      have hne : s.get ≠ s.put := by omega
      have hg1 : (s.get + 1) &&& (KEYBUFLEN - 1) = s.get + 1 := by
        have : s.get + 1 < 16 := by omega
        simpa [KEYBUFLEN] using and15 (s.get + 1) this
      have hval : s.buf (s.get + 1) = b := by
        have := hbuf 0 (by simp)
        simpa using this
      have hg : GetKey s = (some b, { s with get := s.get + 1 }) := by
        unfold GetKey
        rw [if_neg hne]
        simp only [hg1, hval]
      have htail : drainFuel n { s with get := s.get + 1 } = bs := by
        apply ih n
        · simp only
          omega
        · simp only
          omega
        · intro j hj
          have := hbuf (j + 1) (by simp; omega)
          simp only [List.getD_cons_succ] at this
          calc ({ s with get := s.get + 1 } : KbState).buf (s.get + 1 + 1 + j)
              = s.buf (s.get + 1 + (j + 1)) := by
                simp only
                ring_nf
            _ = bs.getD j 0 := this
        · omega
      rw [drainFuel, hg]
      show b :: drainFuel n { s with get := s.get + 1 } = b :: bs
      rw [htail]

/-- C2 counterexample: sixteen well-formed frames presented before any
dequeue make the put cursor wrap onto the get cursor, after which the buffer
reads back as empty - the dequeued list is not the transmitted list (every
byte is lost), refuting the claim for arbitrary frame sequences. -/
theorem fifo_sixteen_frames_lost :
    drainFuel 16 (feedFrames kbInit (List.replicate 16 0x41)) ≠
      List.replicate 16 0x41 := by
  decide

/-- C2 (amended with the capacity bound the counterexample forces): for every
sequence of at most 15 = KEYBUFLEN - 1 well-formed frames presented edge by
edge to the bit receiver, dequeuing yields exactly the transmitted bytes, in
transmission order, none lost and none duplicated. -/
theorem fifo_delivery_in_order (bs : List Nat) (hlen : bs.length ≤ 15)
    (hb : ∀ b ∈ bs, b < 256) :
    drainFuel 16 (feedFrames kbInit bs) = bs := by
  obtain ⟨h1, h2, h3, h4, h5⟩ := feedFrames_inv bs kbInit rfl
    (by simpa [kbInit] using hlen) hb
  apply drain_spec bs 16
  · rw [h2, h3]
    simp [kbInit]
  · rw [h2]
    simpa [kbInit] using hlen
  · intro j hj
    rw [h2]
    have := h4 j hj
    simpa [kbInit] using this
  · omega

/-- Witness for `fifo_delivery_in_order`: three frames carrying the make,
break-prefix and repeat of scan code 0x1C come back out in order. -/
theorem fifo_delivery_in_order_witness :
    drainFuel 16 (feedFrames kbInit [0x1C, 0xF0, 0x1C]) = [0x1C, 0xF0, 0x1C] :=
  fifo_delivery_in_order [0x1C, 0xF0, 0x1C] (by decide) (by decide)

/-! ## Protocol decoder state and helpers (host.c) -/

/-- The `m_bShiftFlags` modifier bits of host.c: left/right shift, control
and caps lock. -/
structure ShiftState where
  leftShiftDown : Bool
  rightShiftDown : Bool
  controlDown : Bool
  capsLockOn : Bool
deriving DecidableEq, Repr

/-- Modifier state at decoder startup (`m_bShiftFlags = 0`). -/
def shiftInit : ShiftState := ⟨false, false, false, false⟩

/-- External configuration of the decoder: the SWAP_CAPSLOCK_AND_CONTROL
jumper and the read-only scan-code table `g_abScanCodes` (row, column). -/
structure DecConfig where
  swap : Bool
  table : Nat → Nat → Nat

/-- Embedding of `DoSpecial` (host.c lines 165-177): the keyboard status
bytes that are logged and consumed with no further action. -/
def DoSpecial (bKey : Nat) : Bool :=
  bKey = 0xFA ∨ bKey = 0xAA ∨ bKey = 0xEE ∨ bKey = 0xFE ∨ bKey = 0x00 ∨
    bKey = 0xFF

instance (bKey : Nat) : Decidable (DoSpecial bKey = true) := by
  unfold DoSpecial
  infer_instance

/-- Embedding of `DoShift` (host.c lines 198-243).  Returns the updated
modifier state when the C routine returns TRUE, and `none` when it returns
FALSE (key not handled here; the caps-lock release path `break`s out of the
switch and also returns FALSE).  The CAPS LOCK / CONTROL swap is applied to
the key code first when the jumper is set. -/
def DoShift (swap : Bool) (st : ShiftState) (bKey0 : Nat)
    (fRelease fExtended : Bool) : Option ShiftState :=
  let bKey := if swap then
      (if bKey0 = 0x58 then 0x14 else if bKey0 = 0x14 then 0x58 else bKey0)
    else bKey0
  if bKey = 0x12 then some { st with leftShiftDown := !fRelease }
  else if bKey = 0x59 then some { st with rightShiftDown := !fRelease }
  else if bKey = 0x14 then
    if fExtended then none
    else some { st with controlDown := !fRelease }
  else if bKey = 0x58 then
    if fRelease then none
    else some { st with capsLockOn := !st.capsLockOn }
  else if bKey = 0x11 then some st
  else none

/-- Embedding of `DoFunction` (host.c lines 404-423): the F1..F12 key table;
`some outs` when handled (output only on press), `none` otherwise. -/
def DoFunction (bKey : Nat) (fRelease : Bool) : Option (List Nat) :=
  let press : Nat → List Nat := fun c => if fRelease then [] else [c]
  if bKey = 0x05 then some (press 0x81)
  else if bKey = 0x06 then some (press 0x82)
  else if bKey = 0x04 then some (press 0x83)
  else if bKey = 0x0C then some (press 0x84)
  else if bKey = 0x03 then some (press 0x85)
  else if bKey = 0x0B then some (press 0x86)
  else if bKey = 0x83 then some (press 0x87)
  else if bKey = 0x0A then some (press 0x88)
  else if bKey = 0x01 then some (press 0x89)
  else if bKey = 0x09 then some (press 0x8A)
  else if bKey = 0x78 then some (press 0x8B)
  else if bKey = 0x07 then some (press 0x8C)
  else none

/-- Embedding of `DoKeypad` (host.c lines 252-306): the non-extended numeric
keypad keys and NUM LOCK (which is consumed silently there). -/
def DoKeypad (bKey : Nat) (fRelease : Bool) : Option (List Nat) :=
  let press : Nat → List Nat := fun c => if fRelease then [] else [c]
  if bKey = 0x70 then some (press 0xA0)
  else if bKey = 0x69 then some (press 0xA1)
  else if bKey = 0x72 then some (press 0xA2)
  else if bKey = 0x7A then some (press 0xA3)
  else if bKey = 0x6B then some (press 0xA4)
  else if bKey = 0x73 then some (press 0xA5)
  else if bKey = 0x74 then some (press 0xA6)
  else if bKey = 0x6C then some (press 0xA7)
  else if bKey = 0x75 then some (press 0xA8)
  else if bKey = 0x7D then some (press 0xA9)
  else if bKey = 0x71 then some (press 0xAA)
  else if bKey = 0x7C then some (press 0xAD)
  else if bKey = 0x7B then some (press 0xAE)
  else if bKey = 0x79 then some (press 0xAB)
  else if bKey = 0x77 then some []
  else none

/-- The post-lookup transform of `DoASCII` (host.c lines 443-445): mask to
7 bits, then force lowercase letters to uppercase (AND 0xDF) when CAPS LOCK
is on. -/
def asciiOut (caps : Bool) (a : Nat) : Nat :=
  let c := a &&& 0x7F
  if caps ∧ 97 ≤ c ∧ c ≤ 122 then c &&& 0xDF else c

/-- Embedding of `DoASCII` (host.c lines 435-448): compute the 2-bit shift
index, look up the scan-code table, return `none` (routine returns FALSE)
on a zero entry, consume releases silently, and otherwise emit the resolved
character. -/
def DoASCII (table : Nat → Nat → Nat) (st : ShiftState) (bKey : Nat)
    (fRelease : Bool) : Option (List Nat) :=
  let bShift : Nat :=
    (if st.leftShiftDown ∨ st.rightShiftDown then 1 else 0) +
      (if st.controlDown then 2 else 0)
  let bASCII := table bKey bShift
  if bASCII = 0 then none
  else if fRelease then some []
  else some [asciiOut st.capsLockOn bASCII]

/-- The shift/control index computed at the top of `DoASCII`. -/
def shiftIndex (st : ShiftState) : Nat :=
  (if st.leftShiftDown ∨ st.rightShiftDown then 1 else 0) +
    (if st.controlDown then 2 else 0)

/-- Dispatch of `DoExtended` (host.c lines 327-397) once the extended key
code and its release flag are in hand: arrow keys, editing keys, keypad
ENTER and slash, right ALT and CONTROL via `DoShift`, MENU, Windows keys via
`DoShift`, and the two PRINT SCREEN codes.  Returns the new modifier state
and the emitted output codes. -/
def extDispatch (cfg : DecConfig) (st : ShiftState) (b : Nat)
    (fRelease : Bool) : ShiftState × List Nat :=
  let press : Nat → List Nat := fun c => if fRelease then [] else [c]
  if b = 0x75 then (st, press 0x90)
  else if b = 0x72 then (st, press 0x91)
  else if b = 0x74 then (st, press 0x92)
  else if b = 0x6B then (st, press 0x93)
  else if b = 0x69 then (st, press 0x96)
  else if b = 0x6C then (st, press 0x97)
  else if b = 0x70 then (st, press 0x98)
  else if b = 0x71 then (st, press 0x9B)
  else if b = 0x7A then (st, press 0x99)
  else if b = 0x7D then (st, press 0x9A)
  else if b = 0x5A then (st, press 0xAF)
  else if b = 0x4A then (st, press 0xAC)
  else if b = 0x11 ∨ b = 0x14 then
    ((DoShift cfg.swap st b fRelease true).getD st, [])
  else if b = 0x2F then (st, press 0x95)
  else if b = 0x1F ∨ b = 0x27 then
    ((DoShift cfg.swap st b fRelease true).getD st, [])
  else if b = 0x12 ∨ b = 0x7C then (st, [])
  else (st, [])

/-- The fixed 7-byte tail the PAUSE/BREAK key sends after the 0xE1 prefix
(host.c lines 473-479). -/
def pauseTail : List Nat := [0x14, 0x77, 0xE1, 0xF0, 0x14, 0xF0, 0x77]

/-- The chain of `if (WaitKey() != c) continue;` comparisons of the
Pause/Break sub-decode: consume input bytes against the expected literals
until a mismatch (the mismatching byte is consumed) or a full match;
`none` when the input runs dry mid-sequence (WaitKey blocks). -/
def matchTail : List Nat → List Nat → Option (Bool × List Nat)
  | [], rest => some (true, rest)
  | _ :: _, [] => none
  | e :: es, b :: bs => if b = e then matchTail es bs else some (false, bs)

/-- Tail of one `ConvertKeys` iteration (host.c lines 487-509) after the
status-byte and 0xE0/0xE1 prefixes have been ruled out and the release
prefix has been resolved: NUM LOCK, SCROLL LOCK, `DoShift`, `DoFunction`,
`DoKeypad`, then `DoASCII`, else logged as unknown and dropped.  Returns the
new modifier state, the emitted output codes, the remaining input, and the
rows of `g_abScanCodes` accessed (the last component is ghost
instrumentation: `DoASCII` performs its table lookup unconditionally). -/
def convertTail (cfg : DecConfig) (st : ShiftState) (bKey : Nat)
    (fRelease : Bool) (rest : List Nat) :
    ShiftState × List Nat × List Nat × List Nat :=
  if bKey = 0x77 then (st, if fRelease then [] else [0x8E], rest, [])
  else if bKey = 0x7E then (st, if fRelease then [] else [0x8D], rest, [])
  else
    match DoShift cfg.swap st bKey fRelease false with
    | some st1 => (st1, [], rest, [])
    | none =>
      match DoFunction bKey fRelease with
      | some outs => (st, outs, rest, [])
      | none =>
        match DoKeypad bKey fRelease with
        | some outs => (st, outs, rest, [])
        | none =>
          match DoASCII cfg.table st bKey fRelease with
          | some outs => (st, outs, rest, [bKey])
          | none => (st, [], rest, [bKey])

/-- One iteration of the `ConvertKeys` loop (host.c lines 456-511): dequeue
one byte and dispatch it in source order - status bytes, the 0xE0 extended
prefix (with its inner release prefix), the 0xE1 Pause/Break literal
sequence, the 0xF0 release prefix, then `convertTail`.  `none` models the
iteration blocking on `WaitKey` for lack of input.  Result components:
final modifier state, bytes sent to the host (in order), remaining input,
scan-code-table rows accessed. -/
def convertStep (cfg : DecConfig) (st : ShiftState) (input : List Nat) :
    Option (ShiftState × List Nat × List Nat × List Nat) :=
  match input with
  | [] => none
  | bKey :: rest =>
    if DoSpecial bKey then some (st, [], rest, [])
    else if bKey = 0xE0 then
      match rest with
      | [] => none
      | b0 :: r1 =>
        if b0 = 0xF0 then
          match r1 with
          | [] => none
          | b1 :: r2 =>
            let p := extDispatch cfg st b1 true
            some (p.1, p.2, r2, [])
        else
          let p := extDispatch cfg st b0 false
          some (p.1, p.2, r1, [])
    else if bKey = 0xE1 then
      match matchTail pauseTail rest with
      | none => none
      | some (true, r2) => some (st, [0x80], r2, [])
      | some (false, r2) => some (st, [], r2, [])
    else if bKey = 0xF0 then
      match rest with
      | [] => none
      | k :: r2 => some (convertTail cfg st k true r2)
    else some (convertTail cfg st bKey false rest)

/-! ## Claim C5: the Pause/Break literal sequence -/

theorem matchTail_self : ∀ (es bs : List Nat),
    matchTail es (es ++ bs) = some (true, bs) := by
  intro es
  induction es with
  | nil => intro bs; rfl
  | cons e es ih =>
    intro bs
    simp [matchTail, ih]

/-- C5: dequeuing 0xE1 starts the Pause/Break sub-decode, which compares the
next seven bytes against the fixed tail 0x14,0x77,0xE1,0xF0,0x14,0xF0,0x77.
A complete match emits exactly one Break code (0x80) and consumes the eight
bytes; a mismatch at any position aborts with zero output, consuming the
mismatching byte, leaving the modifier state untouched and accessing no
scan-code-table row. -/
theorem pause_break_sequence (cfg : DecConfig) (st : ShiftState) :
    (∀ rest : List Nat,
      convertStep cfg st (0xE1 :: (pauseTail ++ rest)) =
        some (st, [0x80], rest, [])) ∧
    (∀ (i b : Nat) (rest : List Nat), i < 7 → b ≠ pauseTail.getD i 0 →
      convertStep cfg st (0xE1 :: (pauseTail.take i ++ b :: rest)) =
        some (st, [], rest, [])) := by
  constructor
  · intro rest
    simp [convertStep, DoSpecial, matchTail_self]
  · intro i b rest hi hb
    interval_cases i <;>
      simp_all [convertStep, DoSpecial, pauseTail, matchTail]

/-- Configuration with the swap jumper off and an all-zero scan table, used
only to instantiate witnesses. -/
def cfgZero : DecConfig := ⟨false, fun _ _ => 0⟩

/-- Witness for `pause_break_sequence`: the full 8-byte sequence yields one
Break code, and a deviation at the fourth byte (0x00 instead of 0xF0) yields
nothing. -/
theorem pause_break_sequence_witness :
    convertStep cfgZero shiftInit (0xE1 :: (pauseTail ++ [])) =
      some (shiftInit, [0x80], [], []) ∧
    convertStep cfgZero shiftInit (0xE1 :: (pauseTail.take 3 ++ 0x00 :: [])) =
      some (shiftInit, [], [], []) :=
  ⟨(pause_break_sequence cfgZero shiftInit).1 [],
   (pause_break_sequence cfgZero shiftInit).2 3 0x00 [] (by decide) (by decide)⟩

/-! ## Claim C6: ASCII resolution -/

theorem and127 : ∀ a : Nat, a < 128 → a &&& 127 = a := by decide

/-- The post-lookup transform of `DoASCII` on a 7-bit entry: with CAPS LOCK
on, a lowercase letter is shifted to its uppercase counterpart (AND 0xDF is
subtraction of 32 there); anything else passes through. -/
theorem asciiOut_spec : ∀ (caps : Bool) (a : Nat), a < 128 →
    asciiOut caps a = if caps = true ∧ 97 ≤ a ∧ a ≤ 122 then a - 32 else a := by
  intro caps
  cases caps <;> decide

/-- C6: `DoASCII` computes a 2-bit shift index whose bit 0 is set iff either
shift key is down and whose bit 1 is set iff control is down, and looks up
`g_abScanCodes[bKey][bShift]`.  A zero entry forwards nothing (the routine
returns FALSE); a nonzero entry on a release is consumed with no output; a
nonzero 7-bit entry on a press is sent to the host, forced to uppercase
when CAPS LOCK is on and the entry is a lowercase letter. -/
theorem ascii_resolution (tbl : Nat → Nat → Nat) (st : ShiftState)
    (bKey : Nat) (fRelease : Bool) :
    ((shiftIndex st).testBit 0 = (st.leftShiftDown || st.rightShiftDown) ∧
     (shiftIndex st).testBit 1 = st.controlDown) ∧
    (tbl bKey (shiftIndex st) = 0 → DoASCII tbl st bKey fRelease = none) ∧
    (tbl bKey (shiftIndex st) ≠ 0 → fRelease = true →
      DoASCII tbl st bKey fRelease = some []) ∧
    (∀ a : Nat, tbl bKey (shiftIndex st) = a → a ≠ 0 → a < 128 →
      fRelease = false →
      DoASCII tbl st bKey fRelease =
        some [if st.capsLockOn = true ∧ 97 ≤ a ∧ a ≤ 122 then a - 32 else a]) := by
  obtain ⟨l, r, c, cp⟩ := st
  refine ⟨?_, ?_, ?_, ?_⟩
  · cases l <;> cases r <;> cases c <;> simp [shiftIndex] <;> decide
  · intro h
    simp only [shiftIndex] at h
    simp [DoASCII, h]
  · intro h hrel
    simp only [shiftIndex] at h
    subst hrel
    simp [DoASCII, h]
  · intro a ha ha0 hlt hrel
    simp only [shiftIndex] at ha
    subst hrel
    rw [← asciiOut_spec cp a hlt]
    simp [DoASCII, ha, ha0]

/-- The scan-code table row for key 0x1C ('A' key) mapping the unshifted
column to lowercase a (0x61), used only to instantiate witnesses. -/
def tblA : Nat → Nat → Nat := fun r c => if r = 0x1C ∧ c = 0 then 0x61 else 0

/-- Witness for `ascii_resolution`: key 0x1C pressed with CAPS LOCK on and no
shift or control resolves through `tblA` to uppercase A (0x41). -/
theorem ascii_resolution_witness :
    DoASCII tblA ⟨false, false, false, true⟩ 0x1C false = some [0x41] := by
  have h := (ascii_resolution tblA ⟨false, false, false, true⟩ 0x1C false).2.2.2
    0x61 (by decide) (by decide) (by decide) rfl
  simpa using h

/-! ## Claim C7: CAPS LOCK toggling -/

/-- On a release, `DoASCII` either rejects the key (zero table entry) or
consumes it with no output. -/
theorem DoASCII_release (tbl : Nat → Nat → Nat) (st : ShiftState) (k : Nat) :
    DoASCII tbl st k true = none ∨ DoASCII tbl st k true = some [] := by
  unfold DoASCII
  split_ifs <;> simp <;> tauto

/-- C7 (stated with the swap jumper off): a non-release 0x58 byte toggles the
CAPS LOCK flag with no host output; two consecutive non-release 0x58 bytes
restore the prior modifier state; a release of 0x58 (0xF0 0x58) changes no
modifier state and produces no output. -/
theorem capslock_toggle (tbl : Nat → Nat → Nat) (st : ShiftState)
    (rest rest2 : List Nat) :
    (convertStep ⟨false, tbl⟩ st (0x58 :: rest) =
      some ({ st with capsLockOn := !st.capsLockOn }, [], rest, [])) ∧
    ((convertStep ⟨false, tbl⟩ st (0x58 :: 0x58 :: rest)).bind
        (fun r => convertStep ⟨false, tbl⟩ r.1 r.2.2.1) =
      some (st, [], rest, [])) ∧
    (convertStep ⟨false, tbl⟩ st (0xF0 :: 0x58 :: rest2) =
      some (st, [], rest2, [0x58])) := by
  obtain ⟨l, r, c, cp⟩ := st
  have hpress : ∀ (st1 : ShiftState) (rest1 : List Nat),
      convertStep ⟨false, tbl⟩ st1 (0x58 :: rest1) =
        some ({ st1 with capsLockOn := !st1.capsLockOn }, [], rest1, []) := by
    intro st1 rest1
    simp [convertStep, convertTail, DoSpecial, DoShift]
  refine ⟨hpress _ rest, ?_, ?_⟩
  · rw [hpress ⟨l, r, c, cp⟩ (0x58 :: rest)]
    simp only [Option.some_bind]
    rw [hpress ⟨l, r, c, !cp⟩ rest]
    simp
  · rcases DoASCII_release tbl ⟨l, r, c, cp⟩ 0x58 with h | h <;>
      simp [convertStep, convertTail, DoSpecial, DoShift, DoFunction,
            DoKeypad, h]

/-! ## Claim C9: right CONTROL is unhandled -/

/-- C9: key code 0x14 with the swap jumper off: in its non-extended form
`DoShift` tracks the Control flag from press/release; in its extended
(right-control) form `DoShift` rejects the key as unhandled (returns FALSE
with no state change), and a whole decoder iteration on 0xE0 0x14 (or its
release 0xE0 0xF0 0x14) leaves the modifier state unchanged and sends
nothing to the host. -/
theorem right_control_unhandled (tbl : Nat → Nat → Nat) (st : ShiftState)
    (rel : Bool) (rest : List Nat) :
    (DoShift false st 0x14 rel false = some { st with controlDown := !rel }) ∧
    (DoShift false st 0x14 rel true = none) ∧
    (convertStep ⟨false, tbl⟩ st (0xE0 :: 0x14 :: rest) =
      some (st, [], rest, [])) ∧
    (convertStep ⟨false, tbl⟩ st (0xE0 :: 0xF0 :: 0x14 :: rest) =
      some (st, [], rest, [])) := by
  refine ⟨?_, ?_, ?_, ?_⟩
  · simp [DoShift]
  · simp [DoShift]
  · simp [convertStep, DoSpecial, extDispatch, DoShift]
  · simp [convertStep, DoSpecial, extDispatch, DoShift]

/-! ## Claim C10: table row bound -/

/-- C10: the claim asserts every byte reaching the `DoASCII` lookup indexes a
row below 128, the declared row count of `g_abScanCodes[128][4]`.  The scan
code 0x84 refutes it: it is not a status byte, not a prefix, not NUM or
SCROLL LOCK, and is rejected by `DoShift`, `DoFunction` and `DoKeypad`
(whose function-key codes 0x05..0x83 do not include 0x84), so the iteration
reaches the `DoASCII` table lookup with row index 0x84 = 132 ≥ 128 - an
out-of-bounds read of the 128-row table. -/
theorem scan_table_row_overrun :
    convertStep cfgZero shiftInit [0x84] =
      some (shiftInit, [], [], [0x84]) ∧ 128 ≤ 0x84 := by
  constructor
  · rfl
  · decide
